import Mathlib

/-!
Shallow embedding of the SFT number generator
(`src/streamlit_app.py`, class `ImprovedSFTNumberGenerator`).

Python snake_case names are kept where possible; `extract_app_prefix` is
rendered as `extractAppPrefix`.  The mutable `st.session_state` triple
(`used_numbers`, `applications`, `sft_mapping`) becomes the explicit record
`GenState`, threaded through every operation.  `random.randint` draws are
passed in as an explicit list of integers (the contract of
`random.randint(3000, 9999)` — every draw lies in the range — appears as a
hypothesis where needed); the retry loop of `generate_sft_number` becomes a
scan of that list, with `none` standing for "the loop has not yet
terminated on the given draws".  A Python `raise` aborts the method before
any further mutation, so an operation returns its error together with the
state exactly as the aborted method body left it.
-/

namespace SFTGen

/-- `self.min_number = 3000`. -/
def min_number : ℤ := 3000

/-- `self.max_number = 9999`. -/
def max_number : ℤ := 9999

/-- `available_numbers = self.max_number - self.min_number + 1` (line 124). -/
def available_numbers : ℕ := (max_number - min_number + 1).toNat

/-- One character class of the regex `[^a-zA-Z0-9]` (line 65): the characters
the substitution keeps. -/
def isAlnumAscii (c : Char) : Bool :=
  ('A' ≤ c && c ≤ 'Z') || ('a' ≤ c && c ≤ 'z') || ('0' ≤ c && c ≤ '9')

/-- `re.sub(r'[^a-zA-Z0-9]', '', app_name.upper())` (line 65), on the
character list of the name. -/
def cleanChars (s : List Char) : List Char :=
  (s.map Char.toUpper).filter isAlnumAscii

/-- Python `str.ljust(width, 'X')`: pad on the right with `'X'` up to
`width` characters. -/
def ljustX (l : List Char) (width : ℕ) : List Char :=
  l ++ List.replicate (width - l.length) 'X'

/-- `ImprovedSFTNumberGenerator.extract_app_prefix` (lines 62–79): clean the
name to uppercase alphanumerics; empty → `"XXXX"`; length ≤ 4 → ljust with
`'X'`; otherwise first two plus last two characters, truncated to 4. -/
def extractAppPrefix (app_name : String) : String :=
  let cleaned := cleanChars app_name.toList
  if cleaned.length = 0 then "XXXX"
  else if cleaned.length ≤ 4 then String.mk (ljustX cleaned 4)
  else if 4 ≤ cleaned.length then
    String.mk ((cleaned.take 2 ++ cleaned.drop (cleaned.length - 2)).take 4)
  else String.mk (ljustX cleaned 4)

/-- The prefix rule exactly as the specification words it: strip the name to
its uppercase alphanumeric characters; if the cleaned string has length ≤ 4,
pad it on the right with the filler character to length 4; if it has length
> 4, take its first 2 characters followed by its last 2 characters. -/
def specPrefixRule (name : String) : String :=
  let cleaned := cleanChars name.toList
  if cleaned.length ≤ 4 then String.mk (ljustX cleaned 4)
  else String.mk (cleaned.take 2 ++ cleaned.drop (cleaned.length - 2))

/-- One registration record (the dict built at lines 144–151 / 200–207). -/
structure AppRecord where
  SFT_Number : String
  Application_Name : String
  Description : String
  Registration_Date : String
  Status : String
  App_Prefix : String
deriving DecidableEq

/-- One value of `st.session_state.sft_mapping` (lines 156–159 / 210–213). -/
structure MapEntry where
  app_name : String
  registration_date : String
deriving DecidableEq

/-- The session state triple the generator mutates. -/
structure GenState where
  used_numbers : Finset ℤ
  applications : List AppRecord
  sft_mapping : List (String × MapEntry)
deriving DecidableEq

/-- Python dict assignment `m[k] = v` on an insertion-ordered mapping:
replace the value if the key is present, else append the pair. -/
def mapInsert (m : List (String × MapEntry)) (k : String) (v : MapEntry) :
    List (String × MapEntry) :=
  if m.any (fun p => p.1 == k) then
    m.map (fun p => if p.1 == k then (k, v) else p)
  else m ++ [(k, v)]

/-- The three `ValueError`s the generator raises (spec names in comments). -/
inductive SFTError where
  /-- "All SFT numbers in the range have been exhausted!" (line 126). -/
  | exhaustedRange
  /-- "Number … is outside valid range" (line 188). -/
  | outOfRange
  /-- "Number … is already in use" (line 191). -/
  | alreadyUsed
deriving DecidableEq

/-- The `while True` retry loop of lines 129–131: return the first draw not
in the used set; `none` when the given draws are exhausted (the loop would
keep drawing). -/
def pickUnused (used : Finset ℤ) : List ℤ → Option ℤ
  | [] => none
  | n :: rest => if n ∈ used then pickUnused used rest else some n

/-- The allocation core of `generate_sft_number` (lines 124–132): the
exhaustion check, then the retry loop, which adds the chosen number to the
used set.  Returns the chosen numeric id and the updated used set. -/
def generate_sft_core (used : Finset ℤ) (draws : List ℤ) :
    Option (Except SFTError ℤ × Finset ℤ) :=
  if available_numbers ≤ used.card then
    some (Except.error SFTError.exhaustedRange, used)
  else
    match pickUnused used draws with
    | none => none
    | some n => some (Except.ok n, insert n used)

/-- `ImprovedSFTNumberGenerator.generate_sft_number` (lines 118–136):
derive the prefix, run the allocation core, and format
`f"SFT_{app_prefix}{number}"`. -/
def generate_sft_number (s : GenState) (app_name : String) (draws : List ℤ) :
    Option (Except SFTError String × GenState) :=
  let appPre := extractAppPrefix app_name
  match generate_sft_core s.used_numbers draws with
  | none => none
  | some (Except.error e, u) =>
      some (Except.error e, { s with used_numbers := u })
  | some (Except.ok n, u) =>
      some (Except.ok ("SFT_" ++ appPre ++ toString n),
            { s with used_numbers := u })

/-- `ImprovedSFTNumberGenerator.register_application` (lines 138–168):
generate a number, append the `'Active'` record, update the mapping; any
exception from generation is caught and `None` is returned. -/
def register_application (s : GenState) (app_name description ts : String)
    (draws : List ℤ) : Option (Option String × GenState) :=
  match generate_sft_number s app_name draws with
  | none => none
  | some (Except.error _, s1) => some (none, s1)
  | some (Except.ok sft, s1) =>
      let r : AppRecord :=
        ⟨sft, app_name, description, ts, "Active", extractAppPrefix app_name⟩
      some (some sft,
        ⟨s1.used_numbers, s1.applications ++ [r],
         mapInsert s1.sft_mapping sft ⟨app_name, ts⟩⟩)

/-- `ImprovedSFTNumberGenerator.reserve_specific_number` (lines 185–218):
range check, used check, then mark used, append the `'Reserved'` record and
update the mapping. -/
def reserve_specific_number (s : GenState) (number : ℤ)
    (app_name description ts : String) : Except SFTError String × GenState :=
  if ¬ (min_number ≤ number ∧ number ≤ max_number) then
    (Except.error SFTError.outOfRange, s)
  else if number ∈ s.used_numbers then
    (Except.error SFTError.alreadyUsed, s)
  else
    let appPre := extractAppPrefix app_name
    let sft := "SFT_" ++ appPre ++ toString number
    let r : AppRecord := ⟨sft, app_name, description, ts, "Reserved", appPre⟩
    (Except.ok sft,
     ⟨insert number s.used_numbers, s.applications ++ [r],
      mapInsert s.sft_mapping sft ⟨app_name, ts⟩⟩)

/-- `ImprovedSFTNumberGenerator.is_number_available` (lines 233–235). -/
def is_number_available (s : GenState) (number : ℤ) : Bool :=
  decide (min_number ≤ number ∧ number ≤ max_number) &&
    ! decide (number ∈ s.used_numbers)

/-- The JSON document written by `save_persistent_data` (lines 106–111). -/
structure PersistedData where
  used_numbers : List ℤ
  applications : List AppRecord
  sft_mapping : List (String × MapEntry)
  last_updated : String
deriving DecidableEq

/-- `ImprovedSFTNumberGenerator.save_persistent_data` (lines 103–116):
write the full document; `list(st.session_state.used_numbers)` enumerates
the used set (modelled by its sorted enumeration). -/
def save_persistent_data (s : GenState) (now : String) : PersistedData :=
  ⟨Finset.sort (· ≤ ·) s.used_numbers, s.applications, s.sft_mapping, now⟩

/-- `ImprovedSFTNumberGenerator.load_persistent_data` (lines 81–101), on a
present well-formed document: `set(data.get('used_numbers', []))` and the
two lists read back. -/
def load_persistent_data (d : PersistedData) : GenState :=
  ⟨d.used_numbers.toFinset, d.applications, d.sft_mapping⟩

/-- A maximal sequence of successful allocations: run the allocation core
once per element of `dss` (the draws each call consumes), collecting the
returned numeric ids; `none` unless every call returns a number. -/
def run_allocations (used : Finset ℤ) :
    List (List ℤ) → Option (List ℤ × Finset ℤ)
  | [] => some ([], used)
  | draws :: rest =>
      match generate_sft_core used draws with
      | some (Except.ok n, used1) =>
          match run_allocations used1 rest with
          | some (ns, u2) => some (n :: ns, u2)
          | none => none
      | _ => none

/-! ### Helper lemmas -/

theorem length_cleanChars_prefixParts {c : List Char} (h : 4 < c.length) :
    (c.take 2 ++ c.drop (c.length - 2)).length = 4 := by
  simp only [List.length_append, List.length_take, List.length_drop]
  omega

theorem extractAppPrefix_eq_specRule (name : String) :
    extractAppPrefix name = specPrefixRule name := by
  unfold extractAppPrefix specPrefixRule
  set c := cleanChars name.toList with hc
  by_cases h0 : c.length = 0
  · rw [if_pos h0, if_pos (show c.length ≤ 4 by omega)]
    have he : c = [] := List.length_eq_zero.mp h0
    rw [he]
    rfl
  · rw [if_neg h0]
    by_cases h4 : c.length ≤ 4
    · rw [if_pos h4, if_pos h4]
    · rw [if_neg h4, if_neg h4, if_pos (show 4 ≤ c.length by omega)]
      congr 1
      exact List.take_of_length_le
        (le_of_eq (length_cleanChars_prefixParts (by omega)))

theorem pickUnused_eq_some {used : Finset ℤ} {ds : List ℤ} {n : ℤ}
    (h : pickUnused used ds = some n) : n ∈ ds ∧ n ∉ used := by
  induction ds with
  | nil => simp [pickUnused] at h
  | cons a t ih =>
      rw [pickUnused] at h
      split at h
      · rcases ih h with ⟨h1, h2⟩
        exact ⟨List.mem_cons_of_mem _ h1, h2⟩
      · cases h
        exact ⟨List.mem_cons_self _ _, by assumption⟩

theorem generate_core_ok {used : Finset ℤ} {ds : List ℤ} {n : ℤ} {u : Finset ℤ}
    (h : generate_sft_core used ds = some (Except.ok n, u)) :
    used.card < available_numbers ∧ n ∈ ds ∧ n ∉ used ∧ u = insert n used := by
  unfold generate_sft_core at h
  split at h
  · simp at h
  · rename_i hlt
    cases hp : pickUnused used ds with
    | none => rw [hp] at h; simp at h
    | some m =>
        rw [hp] at h
        simp only [Option.some.injEq, Prod.mk.injEq, Except.ok.injEq] at h
        obtain ⟨hm, hu⟩ := h
        subst hm
        rcases pickUnused_eq_some hp with ⟨h1, h2⟩
        exact ⟨by omega, h1, h2, hu.symm⟩

theorem generate_core_error {used : Finset ℤ} {ds : List ℤ} {e : SFTError}
    {u : Finset ℤ} (h : generate_sft_core used ds = some (Except.error e, u)) :
    e = SFTError.exhaustedRange ∧ u = used ∧ available_numbers ≤ used.card := by
  unfold generate_sft_core at h
  split at h
  · rename_i hge
    simp only [Option.some.injEq, Prod.mk.injEq, Except.error.injEq] at h
    exact ⟨h.1.symm, h.2.symm, hge⟩
  · cases hp : pickUnused used ds with
    | none => rw [hp] at h; simp at h
    | some m => rw [hp] at h; simp at h

theorem generate_core_exhausted {used : Finset ℤ}
    (h : available_numbers ≤ used.card) (ds : List ℤ) :
    generate_sft_core used ds
      = some (Except.error SFTError.exhaustedRange, used) := by
  unfold generate_sft_core
  rw [if_pos h]

theorem generate_ok_parts {s : GenState} {name : String} {ds : List ℤ}
    {sft : String} {s1 : GenState}
    (h : generate_sft_number s name ds = some (Except.ok sft, s1)) :
    ∃ n : ℤ, n ∈ ds ∧ n ∉ s.used_numbers ∧
      s.used_numbers.card < available_numbers ∧
      s1 = ⟨insert n s.used_numbers, s.applications, s.sft_mapping⟩ ∧
      sft = "SFT_" ++ extractAppPrefix name ++ toString n := by
  unfold generate_sft_number at h
  cases hc : generate_sft_core s.used_numbers ds with
  | none => rw [hc] at h; simp at h
  | some p =>
      obtain ⟨r, u⟩ := p
      cases r with
      | error e => rw [hc] at h; simp at h
      | ok n =>
          rw [hc] at h
          simp only [Option.some.injEq, Prod.mk.injEq, Except.ok.injEq] at h
          obtain ⟨hsft, hs1⟩ := h
          rcases generate_core_ok hc with ⟨h1, h2, h3, h4⟩
          subst hs1
          refine ⟨n, h2, h3, h1, ?_, hsft.symm⟩
          rw [h4]

theorem generate_error_parts {s : GenState} {name : String} {ds : List ℤ}
    {e : SFTError} {s1 : GenState}
    (h : generate_sft_number s name ds = some (Except.error e, s1)) :
    e = SFTError.exhaustedRange ∧ s1 = s ∧
      available_numbers ≤ s.used_numbers.card := by
  unfold generate_sft_number at h
  cases hc : generate_sft_core s.used_numbers ds with
  | none => rw [hc] at h; simp at h
  | some p =>
      obtain ⟨r, u⟩ := p
      cases r with
      | ok n => rw [hc] at h; simp at h
      | error e' =>
          rw [hc] at h
          simp only [Option.some.injEq, Prod.mk.injEq, Except.error.injEq] at h
          obtain ⟨he, hs1⟩ := h
          rcases generate_core_error hc with ⟨h1, h2, h3⟩
          subst hs1
          refine ⟨he ▸ h1, ?_, h3⟩
          rw [h2]

theorem generate_exhausted (s : GenState) (name : String) (ds : List ℤ)
    (h : available_numbers ≤ s.used_numbers.card) :
    generate_sft_number s name ds
      = some (Except.error SFTError.exhaustedRange, s) := by
  unfold generate_sft_number
  rw [generate_core_exhausted h]

theorem reserve_ok_state {s : GenState} {number : ℤ}
    {name descr ts sft : String} {s1 : GenState}
    (h : reserve_specific_number s number name descr ts
        = (Except.ok sft, s1)) :
    (min_number ≤ number ∧ number ≤ max_number) ∧
      number ∉ s.used_numbers ∧
      sft = "SFT_" ++ extractAppPrefix name ++ toString number ∧
      s1 = ⟨insert number s.used_numbers,
            s.applications ++
              [⟨sft, name, descr, ts, "Reserved", extractAppPrefix name⟩],
            mapInsert s.sft_mapping sft ⟨name, ts⟩⟩ := by
  unfold reserve_specific_number at h
  split at h
  · simp at h
  · split at h
    · simp at h
    · rename_i hnr hmem
      simp only [Prod.mk.injEq, Except.ok.injEq] at h
      obtain ⟨hsft, hs1⟩ := h
      subst hsft
      exact ⟨not_not.mp hnr, hmem, rfl, hs1.symm⟩

theorem register_none_state {s : GenState} {name descr ts : String}
    {draws : List ℤ} {s1 : GenState}
    (h : register_application s name descr ts draws = some (none, s1)) :
    s1 = s := by
  unfold register_application at h
  cases hg : generate_sft_number s name draws with
  | none => rw [hg] at h; simp at h
  | some p =>
      obtain ⟨r, s2⟩ := p
      cases r with
      | error e =>
          rw [hg] at h
          simp only [Option.some.injEq, Prod.mk.injEq] at h
          rcases generate_error_parts hg with ⟨_, hs2, _⟩
          rw [← h.2, hs2]
      | ok sft => rw [hg] at h; simp at h

theorem register_some_state {s : GenState} {name descr ts : String}
    {draws : List ℤ} {sft : String} {s1 : GenState}
    (h : register_application s name descr ts draws = some (some sft, s1)) :
    ∃ n : ℤ, n ∈ draws ∧ n ∉ s.used_numbers ∧
      sft = "SFT_" ++ extractAppPrefix name ++ toString n ∧
      s1 = ⟨insert n s.used_numbers,
            s.applications ++
              [⟨sft, name, descr, ts, "Active", extractAppPrefix name⟩],
            mapInsert s.sft_mapping sft ⟨name, ts⟩⟩ := by
  unfold register_application at h
  cases hg : generate_sft_number s name draws with
  | none => rw [hg] at h; simp at h
  | some p =>
      obtain ⟨r, s2⟩ := p
      cases r with
      | error e => rw [hg] at h; simp at h
      | ok sft' =>
          rw [hg] at h
          simp only [Option.some.injEq, Prod.mk.injEq] at h
          obtain ⟨hsft, hs1⟩ := h
          rcases generate_ok_parts hg with ⟨n, hmem, hnot, _, hs2, hfmt⟩
          subst hs2
          subst hsft
          exact ⟨n, hmem, hnot, hfmt, hs1.symm⟩

theorem run_allocations_spec :
    ∀ (dss : List (List ℤ)) (used : Finset ℤ) (ns : List ℤ)
      (used1 : Finset ℤ),
      run_allocations used dss = some (ns, used1) →
      ns.Nodup ∧ (∀ n ∈ ns, n ∉ used ∧ ∃ ds ∈ dss, n ∈ ds) ∧
        used1 = used ∪ ns.toFinset := by
  intro dss
  induction dss with
  | nil =>
      intro used ns used1 h
      simp only [run_allocations, Option.some.injEq, Prod.mk.injEq] at h
      obtain ⟨h1, h2⟩ := h
      subst h1
      subst h2
      simp
  | cons ds rest ih =>
      intro used ns used1 h
      rw [run_allocations] at h
      cases hc : generate_sft_core used ds with
      | none => rw [hc] at h; simp at h
      | some p =>
          obtain ⟨r, u1⟩ := p
          cases r with
          | error e => rw [hc] at h; simp at h
          | ok n =>
              rw [hc] at h
              dsimp only at h
              cases hrun : run_allocations u1 rest with
              | none => rw [hrun] at h; simp at h
              | some q =>
                  obtain ⟨ns', u2⟩ := q
                  rw [hrun] at h
                  simp only [Option.some.injEq, Prod.mk.injEq] at h
                  obtain ⟨hns, hu⟩ := h
                  subst hns
                  subst hu
                  rcases generate_core_ok hc with ⟨_, hmem, hnot, hu1⟩
                  subst hu1
                  rcases ih _ _ _ hrun with ⟨ih1, ih2, ih3⟩
                  refine ⟨?_, ?_, ?_⟩
                  · refine List.nodup_cons.mpr ⟨?_, ih1⟩
                    intro hninns
                    rcases ih2 n hninns with ⟨hnin, _⟩
                    exact hnin (Finset.mem_insert_self _ _)
                  · intro m hm
                    rcases List.mem_cons.mp hm with rfl | hm'
                    · exact ⟨hnot, ds, List.mem_cons_self _ _, hmem⟩
                    · rcases ih2 m hm' with ⟨hmnot, ds', hds', hmds'⟩
                      exact ⟨fun hmu => hmnot (Finset.mem_insert_of_mem hmu),
                             ds', List.mem_cons_of_mem _ hds', hmds'⟩
                  · rw [ih3, List.toFinset_cons, Finset.insert_union,
                      Finset.union_insert]

theorem run_allocations_fresh :
    ∀ (l : List ℤ) (used : Finset ℤ), l.Nodup →
      (∀ n ∈ l, n ∉ used) →
      used.card + l.length ≤ available_numbers →
      run_allocations used (l.map fun n => [n])
        = some (l, used ∪ l.toFinset) := by
  intro l
  induction l with
  | nil =>
      intro used _ _ _
      simp [run_allocations]
  | cons n t ih =>
      intro used hnd hfresh hcard
      have hn : n ∉ used := hfresh n (List.mem_cons_self _ _)
      rw [List.length_cons] at hcard
      have hcore : generate_sft_core used [n]
          = some (Except.ok n, insert n used) := by
        unfold generate_sft_core
        rw [if_neg (by omega)]
        simp [pickUnused, hn]
      have hfresh' : ∀ m ∈ t, m ∉ insert n used := by
        intro m hm hmem
        rcases Finset.mem_insert.mp hmem with rfl | h'
        · exact (List.nodup_cons.mp hnd).1 hm
        · exact hfresh m (List.mem_cons_of_mem _ hm) h'
      have hcard' : (insert n used).card + t.length ≤ available_numbers := by
        rw [Finset.card_insert_of_not_mem hn]
        omega
      simp only [List.map_cons]
      rw [run_allocations, hcore]
      dsimp only
      rw [ih (insert n used) (List.nodup_cons.mp hnd).2 hfresh' hcard']
      simp [List.toFinset_cons, Finset.insert_union, Finset.union_insert]

theorem available_numbers_eq : available_numbers = 7000 := rfl

/-- The full id range [3000, 9999] as a list, low to high. -/
def rangeIds : List ℤ :=
  (List.range available_numbers).map (fun (i : ℕ) => min_number + (i : ℤ))

theorem rangeIds_nodup : rangeIds.Nodup := by
  unfold rangeIds
  refine List.Nodup.map ?_ (List.nodup_range _)
  intro a b hab
  simp only [min_number] at hab
  omega

theorem rangeIds_length : rangeIds.length = available_numbers := by
  unfold rangeIds
  rw [List.length_map, List.length_range]

theorem rangeIds_toFinset :
    rangeIds.toFinset = Finset.Icc min_number max_number := by
  ext n
  simp only [rangeIds, List.mem_toFinset, List.mem_map, List.mem_range,
    Finset.mem_Icc, min_number, max_number, available_numbers_eq]
  constructor
  · rintro ⟨i, hi, rfl⟩
    omega
  · intro hn
    exact ⟨(n - 3000).toNat, by omega, by omega⟩

/-! ### Claim theorems -/

/-- C1: the derived 4-character prefix is a deterministic function of the
name given by the spec's rule (uppercase alphanumerics; pad right with the
filler to 4 when length ≤ 4; first 2 plus last 2 when longer), and on
"WebApp_Authentication" the cleaned string is "WEBAPPAUTHENTICATION" and
the prefix is "WE" ++ "ON" = "WEON". -/
theorem claim1_extract_app_prefix_rule :
    (∀ name : String, extractAppPrefix name = specPrefixRule name) ∧
    cleanChars "WebApp_Authentication".toList = "WEBAPPAUTHENTICATION".toList ∧
    extractAppPrefix "WebApp_Authentication" = "WEON" :=
  ⟨extractAppPrefix_eq_specRule, by decide, by decide⟩

/-- C4: `reserve_specific_number` raises `OutOfRangeError` outside
[3000, 9999], raises `AlreadyUsedError` on an id already in the used set,
and otherwise succeeds, marking the id used; reserving 5000 twice makes
the second call raise `AlreadyUsedError`. -/
theorem claim4_reserve_specific_number_errors (s : GenState) (number : ℤ)
    (name descr ts : String) :
    (¬ (min_number ≤ number ∧ number ≤ max_number) →
      reserve_specific_number s number name descr ts
        = (Except.error SFTError.outOfRange, s)) ∧
    ((min_number ≤ number ∧ number ≤ max_number) →
      number ∈ s.used_numbers →
      reserve_specific_number s number name descr ts
        = (Except.error SFTError.alreadyUsed, s)) ∧
    ((min_number ≤ number ∧ number ≤ max_number) →
      number ∉ s.used_numbers →
      ∃ sft s1, reserve_specific_number s number name descr ts
          = (Except.ok sft, s1) ∧
        s1.used_numbers = insert number s.used_numbers) ∧
    (∀ sft s1,
      reserve_specific_number s 5000 "X" descr ts = (Except.ok sft, s1) →
      reserve_specific_number s1 5000 "X" descr ts
        = (Except.error SFTError.alreadyUsed, s1)) := by
  have hr5 : min_number ≤ (5000 : ℤ) ∧ (5000 : ℤ) ≤ max_number := by decide
  refine ⟨?_, ?_, ?_, ?_⟩
  · intro h
    unfold reserve_specific_number
    rw [if_pos h]
  · intro hrange hmem
    unfold reserve_specific_number
    rw [if_neg (not_not_intro hrange), if_pos hmem]
  · intro hrange hmem
    unfold reserve_specific_number
    rw [if_neg (not_not_intro hrange), if_neg hmem]
    exact ⟨_, _, rfl, rfl⟩
  · intro sft s1 hok
    unfold reserve_specific_number at hok
    rw [if_neg (not_not_intro hr5)] at hok
    by_cases hm : (5000 : ℤ) ∈ s.used_numbers
    · rw [if_pos hm] at hok
      simp at hok
    · rw [if_neg hm] at hok
      simp only [Prod.mk.injEq, Except.ok.injEq] at hok
      obtain ⟨hsft, hs1⟩ := hok
      unfold reserve_specific_number
      rw [if_neg (not_not_intro hr5),
        if_pos (show (5000 : ℤ) ∈ s1.used_numbers by
          rw [← hs1]; exact Finset.mem_insert_self _ _)]

/-- C6: `is_number_available` returns `true` exactly when the id is within
[3000, 9999] and not in the used set; after a successful
`reserve_specific_number 5000 "X"`, `is_number_available 5000` is
`false`. -/
theorem claim6_is_number_available (s : GenState) (number : ℤ)
    (descr ts : String) :
    (is_number_available s number = true ↔
      ((min_number ≤ number ∧ number ≤ max_number) ∧
        number ∉ s.used_numbers)) ∧
    (∀ sft s1,
      reserve_specific_number s 5000 "X" descr ts = (Except.ok sft, s1) →
      is_number_available s1 5000 = false) := by
  constructor
  · simp [is_number_available]
  · intro sft s1 hok
    unfold reserve_specific_number at hok
    rw [if_neg (not_not_intro (show min_number ≤ (5000 : ℤ) ∧
      (5000 : ℤ) ≤ max_number by decide))] at hok
    by_cases hm : (5000 : ℤ) ∈ s.used_numbers
    · rw [if_pos hm] at hok
      simp at hok
    · rw [if_neg hm] at hok
      simp only [Prod.mk.injEq, Except.ok.injEq] at hok
      obtain ⟨hsft, hs1⟩ := hok
      have h5 : (5000 : ℤ) ∈ s1.used_numbers := by
        rw [← hs1]; exact Finset.mem_insert_self _ _
      simp [is_number_available, h5]

/-- C7: the persisted ledger round-trips: saving the state and reloading
the written document restores the used-id set, the record list and the
mapping unchanged. -/
theorem claim7_persistence_roundtrip (s : GenState) (now : String) :
    load_persistent_data (save_persistent_data s now) = s := by
  cases s with
  | mk u a m =>
      simp [load_persistent_data, save_persistent_data, Finset.sort_toFinset]

/-- C9: `reserve_specific_number` is atomic on error: when it raises
(out of range or already used), the session state — used set, record list
and mapping — is exactly the state before the call. -/
theorem claim9_reserve_atomic_on_error (s : GenState) (number : ℤ)
    (name descr ts : String) (e : SFTError) (s1 : GenState)
    (h : reserve_specific_number s number name descr ts
        = (Except.error e, s1)) :
    s1 = s := by
  unfold reserve_specific_number at h
  split at h
  · simp only [Prod.mk.injEq] at h
    exact h.2.symm
  · split at h
    · simp only [Prod.mk.injEq] at h
      exact h.2.symm
    · simp at h

/-- C4 witness: the three error/success cases at concrete inputs, obtained
from the claim theorem. -/
theorem claim4_reserve_specific_number_errors_witness :
    reserve_specific_number ⟨∅, [], []⟩ 200 "X" "" "t"
      = (Except.error SFTError.outOfRange, ⟨∅, [], []⟩) ∧
    reserve_specific_number ⟨insert 5000 ∅, [], []⟩ 5000 "X" "" "t"
      = (Except.error SFTError.alreadyUsed, ⟨insert 5000 ∅, [], []⟩) ∧
    reserve_specific_number
        ⟨insert 5000 ∅,
         [⟨"SFT_XXXX5000", "X", "", "t", "Reserved", "XXXX"⟩],
         [("SFT_XXXX5000", ⟨"X", "t"⟩)]⟩ 5000 "X" "" "t"
      = (Except.error SFTError.alreadyUsed,
         ⟨insert 5000 ∅,
          [⟨"SFT_XXXX5000", "X", "", "t", "Reserved", "XXXX"⟩],
          [("SFT_XXXX5000", ⟨"X", "t"⟩)]⟩) :=
  ⟨(claim4_reserve_specific_number_errors ⟨∅, [], []⟩ 200 "X" "" "t").1
      (by decide),
   (claim4_reserve_specific_number_errors
      ⟨insert 5000 ∅, [], []⟩ 5000 "X" "" "t").2.1 (by decide) (by decide),
   (claim4_reserve_specific_number_errors ⟨∅, [], []⟩ 5000 "X" "" "t").2.2.2
      "SFT_XXXX5000" _ rfl⟩

/-- C6 witness: availability of 5000 on the empty ledger, and after the
concrete reservation of 5000. -/
theorem claim6_is_number_available_witness :
    (is_number_available ⟨∅, [], []⟩ 5000 = true ↔
      ((min_number ≤ (5000 : ℤ) ∧ (5000 : ℤ) ≤ max_number) ∧
        (5000 : ℤ) ∉ (∅ : Finset ℤ))) ∧
    is_number_available
      ⟨insert 5000 ∅,
       [⟨"SFT_XXXX5000", "X", "", "t", "Reserved", "XXXX"⟩],
       [("SFT_XXXX5000", ⟨"X", "t"⟩)]⟩ 5000 = false :=
  ⟨(claim6_is_number_available ⟨∅, [], []⟩ 5000 "" "t").1,
   (claim6_is_number_available ⟨∅, [], []⟩ 5000 "" "t").2 "SFT_XXXX5000" _
      rfl⟩

/-- C9 witness: an out-of-range reservation on the empty ledger leaves the
state unchanged. -/
theorem claim9_reserve_atomic_on_error_witness :
    reserve_specific_number ⟨∅, [], []⟩ 200 "X" "" "t"
      = (Except.error SFTError.outOfRange, ⟨∅, [], []⟩) ∧
    (GenState.mk ∅ [] [] = ⟨∅, [], []⟩) :=
  ⟨rfl, claim9_reserve_atomic_on_error ⟨∅, [], []⟩ 200 "X" "" "t"
      SFTError.outOfRange ⟨∅, [], []⟩ rfl⟩

/-- C5 counterexample: a successful call returns
`"SFT_" ++ prefix ++ numeric_id`, not `prefix ++ numeric_id` alone, so the
returned string is not just the 4-character prefix followed by the id. -/
theorem claim5_counterexample :
    generate_sft_number ⟨∅, [], []⟩ "WebApp_Authentication" [5000]
      = some (Except.ok "SFT_WEON5000", ⟨insert 5000 ∅, [], []⟩) ∧
    "SFT_WEON5000"
      ≠ extractAppPrefix "WebApp_Authentication" ++ toString (5000 : ℤ) :=
  ⟨rfl, by decide⟩

/-- C5 (amended): every successful allocate call picks its numeric id from
the unused ids among the in-range draws, marks exactly that id used,
touches nothing else in the state, and returns the string
`"SFT_" ++ prefix ++ numeric_id`. -/
theorem claim5_generate_formats (s : GenState) (name : String)
    (draws : List ℤ)
    (hr : ∀ n ∈ draws, min_number ≤ n ∧ n ≤ max_number)
    (sft : String) (s1 : GenState)
    (h : generate_sft_number s name draws = some (Except.ok sft, s1)) :
    ∃ n : ℤ, n ∉ s.used_numbers ∧ min_number ≤ n ∧ n ≤ max_number ∧
      s1 = ⟨insert n s.used_numbers, s.applications, s.sft_mapping⟩ ∧
      sft = "SFT_" ++ extractAppPrefix name ++ toString n := by
  rcases generate_ok_parts h with ⟨n, hmem, hnot, _, hs1, hsft⟩
  rcases hr n hmem with ⟨h1, h2⟩
  exact ⟨n, hnot, h1, h2, hs1, hsft⟩

/-- C5 witness: the amended statement at the concrete successful call of
the counterexample. -/
theorem claim5_generate_formats_witness :
    ∃ n : ℤ, n ∉ (∅ : Finset ℤ) ∧ min_number ≤ n ∧ n ≤ max_number ∧
      (GenState.mk (insert 5000 ∅) [] []) = ⟨insert n ∅, [], []⟩ ∧
      "SFT_WEON5000"
        = "SFT_" ++ extractAppPrefix "WebApp_Authentication" ++ toString n :=
  claim5_generate_formats ⟨∅, [], []⟩ "WebApp_Authentication" [5000]
    (by decide) "SFT_WEON5000" ⟨insert 5000 ∅, [], []⟩ rfl

/-- C8: the record list is append-only: a successful registration or
reservation appends exactly one record at the end, and a failing call
leaves the list untouched. -/
theorem claim8_applications_append_only (s : GenState)
    (name descr ts : String) (number : ℤ) (draws : List ℤ) :
    (∀ sft s1,
      register_application s name descr ts draws = some (some sft, s1) →
      ∃ r, s1.applications = s.applications ++ [r]) ∧
    (∀ s1, register_application s name descr ts draws = some (none, s1) →
      s1.applications = s.applications) ∧
    (∀ sft s1,
      reserve_specific_number s number name descr ts = (Except.ok sft, s1) →
      ∃ r, s1.applications = s.applications ++ [r]) ∧
    (∀ e s1,
      reserve_specific_number s number name descr ts
          = (Except.error e, s1) →
      s1.applications = s.applications) := by
  refine ⟨?_, ?_, ?_, ?_⟩
  · intro sft s1 h
    rcases register_some_state h with ⟨n, _, _, _, hs1⟩
    exact ⟨_, by rw [hs1]⟩
  · intro s1 h
    rw [register_none_state h]
  · intro sft s1 h
    rcases reserve_ok_state h with ⟨_, _, _, hs1⟩
    exact ⟨_, by rw [hs1]⟩
  · intro e s1 h
    unfold reserve_specific_number at h
    split at h
    · simp only [Prod.mk.injEq] at h
      rw [← h.2]
    · split at h
      · simp only [Prod.mk.injEq] at h
        rw [← h.2]
      · simp at h

/-- C8 witness: the four cases at concrete inputs (a successful
registration, a registration failing on the exhausted range, a successful
reservation, and an out-of-range reservation). -/
theorem claim8_applications_append_only_witness :
    (∀ sft s1,
      register_application ⟨∅, [], []⟩ "X" "" "t" [4000]
          = some (some sft, s1) →
      ∃ r, s1.applications = ([] : List AppRecord) ++ [r]) ∧
    (∀ sft s1,
      reserve_specific_number ⟨∅, [], []⟩ 200 "X" "" "t"
          = (Except.ok sft, s1) →
      ∃ r, s1.applications = ([] : List AppRecord) ++ [r]) ∧
    (∀ e s1,
      reserve_specific_number ⟨∅, [], []⟩ 200 "X" "" "t"
          = (Except.error e, s1) →
      s1.applications = ([] : List AppRecord)) :=
  ⟨(claim8_applications_append_only ⟨∅, [], []⟩ "X" "" "t" 200 [4000]).1,
   (claim8_applications_append_only ⟨∅, [], []⟩ "X" "" "t" 200 [4000]).2.2.1,
   (claim8_applications_append_only ⟨∅, [], []⟩ "X" "" "t" 200 [4000]).2.2.2⟩

/-- C10: `register_application` never propagates an exception: it returns
`some` of a formatted SFT string on success, catches a generation error —
range exhaustion included — returning `none`, and in the `none` case the
state (so also the record list) is unchanged. -/
theorem claim10_register_catches_errors (s : GenState)
    (name descr ts : String) (draws : List ℤ) :
    (available_numbers ≤ s.used_numbers.card →
      register_application s name descr ts draws = some (none, s)) ∧
    (∀ s1, register_application s name descr ts draws = some (none, s1) →
      s1 = s) ∧
    (∀ sft s1,
      register_application s name descr ts draws = some (some sft, s1) →
      ∃ n : ℤ, sft = "SFT_" ++ extractAppPrefix name ++ toString n) := by
  refine ⟨?_, ?_, ?_⟩
  · intro h
    unfold register_application
    rw [generate_exhausted s name draws h]
  · intro s1 h
    exact register_none_state h
  · intro sft s1 h
    rcases register_some_state h with ⟨n, _, _, hsft, _⟩
    exact ⟨n, hsft⟩

/-- C10 witness: registration succeeds with a formatted string on the empty
ledger, and returns `none` with the state unchanged on a full ledger. -/
theorem claim10_register_catches_errors_witness :
    register_application
        ⟨Finset.Icc min_number max_number, [], []⟩ "X" "" "t" [4000]
      = some (none, ⟨Finset.Icc min_number max_number, [], []⟩) ∧
    (∀ sft s1,
      register_application ⟨∅, [], []⟩ "X" "" "t" [4000]
          = some (some sft, s1) →
      ∃ n : ℤ, sft = "SFT_" ++ extractAppPrefix "X" ++ toString n) :=
  ⟨(claim10_register_catches_errors
      ⟨Finset.Icc min_number max_number, [], []⟩ "X" "" "t" [4000]).1
      (by rw [Int.card_Icc]; decide),
   (claim10_register_catches_errors ⟨∅, [], []⟩ "X" "" "t" [4000]).2.2⟩

/-- C2: across any sequence of successful allocations, whatever the random
draws, the returned numeric ids are pairwise distinct, none was already
used, the final used set is the initial one plus exactly the returned ids,
and each single successful `generate_sft_number` call adds exactly its
chosen id to the used set; when every draw respects the `randint(3000,
9999)` contract the ids also all lie in [3000, 9999]. -/
theorem claim2_allocations_unique (used : Finset ℤ) (dss : List (List ℤ))
    (hr : ∀ ds ∈ dss, ∀ n ∈ ds, min_number ≤ n ∧ n ≤ max_number)
    (ns : List ℤ) (used1 : Finset ℤ)
    (h : run_allocations used dss = some (ns, used1)) :
    ns.Nodup ∧
    (∀ n ∈ ns, n ∉ used ∧ min_number ≤ n ∧ n ≤ max_number) ∧
    used1 = used ∪ ns.toFinset ∧
    (∀ (s : GenState) (name : String) (ds : List ℤ) (sft : String)
        (s1 : GenState),
      generate_sft_number s name ds = some (Except.ok sft, s1) →
      ∃ n : ℤ, n ∉ s.used_numbers ∧
        s1.used_numbers = insert n s.used_numbers) := by
  rcases run_allocations_spec dss used ns used1 h with ⟨h1, h2, h3⟩
  refine ⟨h1, ?_, h3, ?_⟩
  · intro n hn
    rcases h2 n hn with ⟨hnot, ds, hds, hnds⟩
    exact ⟨hnot, hr ds hds n hnds⟩
  · intro s nm ds sft s1 hg
    rcases generate_ok_parts hg with ⟨n, _, hnot, _, hs1, _⟩
    exact ⟨n, hnot, by rw [hs1]⟩

/-- C2 witness: two allocations from the empty ledger with draws 3000 and
3001. -/
theorem claim2_allocations_unique_witness :
    [(3000 : ℤ), 3001].Nodup ∧
    (∀ n ∈ [(3000 : ℤ), 3001],
      n ∉ (∅ : Finset ℤ) ∧ min_number ≤ n ∧ n ≤ max_number) ∧
    insert (3001 : ℤ) (insert 3000 ∅)
      = ∅ ∪ [(3000 : ℤ), 3001].toFinset ∧
    (∀ (s : GenState) (name : String) (ds : List ℤ) (sft : String)
        (s1 : GenState),
      generate_sft_number s name ds = some (Except.ok sft, s1) →
      ∃ n : ℤ, n ∉ s.used_numbers ∧
        s1.used_numbers = insert n s.used_numbers) :=
  claim2_allocations_unique ∅ [[3000], [3001]] (by decide) [3000, 3001]
    (insert 3001 (insert 3000 ∅)) rfl

/-- C3: `generate_sft_number` raises the exhaustion error exactly when the
used set holds at least 7000 ids; from the empty ledger one sequence of
7000 allocations succeeds and consumes exactly the range [3000, 9999];
on the full range every further call raises the exhaustion error. -/
theorem claim3_exhaustion :
    (∀ (s : GenState) (name : String) (ds : List ℤ),
        available_numbers ≤ s.used_numbers.card →
        generate_sft_number s name ds
          = some (Except.error SFTError.exhaustedRange, s)) ∧
    (∀ (s : GenState) (name : String) (ds : List ℤ) (e : SFTError)
        (s1 : GenState),
        generate_sft_number s name ds = some (Except.error e, s1) →
        e = SFTError.exhaustedRange ∧
          available_numbers ≤ s.used_numbers.card) ∧
    (run_allocations ∅ (rangeIds.map fun n => [n])
        = some (rangeIds, Finset.Icc min_number max_number) ∧
      rangeIds.length = available_numbers) ∧
    (∀ (name : String) (ds : List ℤ),
        generate_sft_number
            ⟨Finset.Icc min_number max_number, [], []⟩ name ds
          = some (Except.error SFTError.exhaustedRange,
                  ⟨Finset.Icc min_number max_number, [], []⟩)) := by
  refine ⟨generate_exhausted, ?_, ⟨?_, rangeIds_length⟩, ?_⟩
  · intro s name ds e s1 h
    rcases generate_error_parts h with ⟨he, _, hc⟩
    exact ⟨he, hc⟩
  · rw [run_allocations_fresh rangeIds ∅ rangeIds_nodup
      (fun n _ => Finset.not_mem_empty n)
      (by rw [Finset.card_empty, rangeIds_length]; omega),
      Finset.empty_union, rangeIds_toFinset]
  · intro name ds
    exact generate_exhausted _ name ds (by rw [Int.card_Icc]; decide)

/-- C3 witness: on the state holding the whole range, a call raises the
exhaustion error, and an error implies 7000 ids are used. -/
theorem claim3_exhaustion_witness :
    generate_sft_number ⟨Finset.Icc min_number max_number, [], []⟩ "X" []
      = some (Except.error SFTError.exhaustedRange,
              ⟨Finset.Icc min_number max_number, [], []⟩) ∧
    (SFTError.exhaustedRange = SFTError.exhaustedRange ∧
      available_numbers ≤ (Finset.Icc min_number max_number).card) :=
  ⟨claim3_exhaustion.1 ⟨Finset.Icc min_number max_number, [], []⟩ "X" []
      (by rw [Int.card_Icc]; decide),
   claim3_exhaustion.2.1 ⟨Finset.Icc min_number max_number, [], []⟩ "X" []
      SFTError.exhaustedRange ⟨Finset.Icc min_number max_number, [], []⟩
      (claim3_exhaustion.1 ⟨Finset.Icc min_number max_number, [], []⟩ "X" []
        (by rw [Int.card_Icc]; decide))⟩

end SFTGen
